import Mathlib

/-!
Verification of the baby-names batch-transfer pipeline
(ingestion: `CsvImporterService.import`, egress: `HubSpotSyncService.sync`).

The definitions below are a shallow embedding of the TypeScript sources:
  - `processRow`, `importGo`, `importRun` embed `CsvImporterService.import`
    (stream handlers, batch accumulation, bulk-insert calls, final flush);
  - `formatContactForHubSpot`, `syncLoop`, `sync` embed
    `HubSpotSyncService.sync` and `formatContactForHubSpot`;
  - `sendBatchR`, `syncLoopR`, `syncR` embed the same egress run together
    with `sendBatchToHubSpot`'s response handling (401 / 429 / 400 / other),
    the remote being modelled by a scripted list of responses, one per
    HTTP attempt.

Stores are modelled by the list of rows the database backend presents to
an unordered query: the service's `findAll` call passes `limit`, `offset`,
`raw` and `logging` but no `order` option, which the embedding keeps
explicit in `FindAllOptions`.
-/

namespace BabyNames

/-- A committed store row (table `BabyNames`): surrogate auto-increment
primary key `id`, plus the `name` and `sex` columns. -/
structure BabyRow where
  id : Nat
  name : String
  sex : String
deriving DecidableEq, Repr

/-- A raw CSV row as produced by the csv parser: the two columns the
importer reads. A missing or empty field is modelled by the empty string
(the JS falsiness test `!row.Name || !row.Sex` accepts exactly the
non-empty strings). -/
structure CsvRow where
  Name : String
  Sex : String
deriving DecidableEq, Repr

/-- The object the importer pushes into its batch:
`{ name: row.Name.trim(), sex: row.Sex.trim() === 'M' ? 'M' : 'F' }`. -/
structure BabyRec where
  name : String
  sex : String
deriving DecidableEq, Repr

/-- Embedding of the JS `trim()`: remove leading and trailing whitespace
characters. -/
def trimStr (s : String) : String :=
  ⟨((s.data.dropWhile Char.isWhitespace).reverse.dropWhile Char.isWhitespace).reverse⟩

/-- Embedding of the record constructed from a validated CSV row
(`CsvImporterService.import`, the `batch.push` argument). -/
def processRow (row : CsvRow) : BabyRec :=
  { name := trimStr row.Name
    sex := if trimStr row.Sex = "M" then "M" else "F" }

/-- Validation test from the importer: `!row.Name || !row.Sex` skips the
row; for strings, falsy means empty. -/
def rowInvalid (row : CsvRow) : Prop := row.Name = "" ∨ row.Sex = ""

instance (row : CsvRow) : Decidable (rowInvalid row) := by
  unfold rowInvalid; infer_instance

/-- State threaded through the importer's stream handlers. -/
structure ImpSt where
  rowCount : Nat
  skipped : Nat
  batch : List BabyRec
  total : Nat
  callIdx : Nat
  calls : List (List BabyRec)
deriving DecidableEq, Repr

/-- Outcome of an ingestion run: the promise result
(`resolve(totalInserted)` or `reject(err)`), the rows read, the rows
skipped by validation, every batch handed to `bulkCreate` in order, the
number of mid-run `bulkCreate` calls, and the leftover batch present when
the stream ended. -/
structure ImportRes where
  result : Except String Nat
  rowCount : Nat
  skipped : Nat
  calls : List (List BabyRec)
  midCalls : Nat
  finalBatch : List BabyRec
deriving Repr

/-- Embedding of `CsvImporterService.import`'s stream processing.
`sink i` is the store's answer to the i-th `bulkCreate` call: `.ok c`
yields `c` created rows (duplicate-tolerant insert), `.error e` a write
error. A mid-run insert error is logged and the stream resumed (the
`.catch` handler), leaving `totalInserted` unchanged; an error on the
final partial batch rejects the promise (the `stream.on('end')` handler's
`catch`). -/
def importGo (thr : Nat) (sink : Nat → Except String Nat) :
    List CsvRow → ImpSt → ImportRes
  | [], st =>
    if st.batch = [] then
      ⟨.ok st.total, st.rowCount, st.skipped, st.calls, st.callIdx, st.batch⟩
    else
      match sink st.callIdx with
      | .ok c =>
        ⟨.ok (st.total + c), st.rowCount, st.skipped,
          st.calls ++ [st.batch], st.callIdx, st.batch⟩
      | .error e =>
        ⟨.error e, st.rowCount, st.skipped,
          st.calls ++ [st.batch], st.callIdx, st.batch⟩
  | row :: rest, st =>
    let st₁ : ImpSt := { st with rowCount := st.rowCount + 1 }
    if rowInvalid row then
      importGo thr sink rest { st₁ with skipped := st₁.skipped + 1 }
    else
      let b := st₁.batch ++ [processRow row]
      if thr ≤ b.length then
        match sink st₁.callIdx with
        | .ok c =>
          importGo thr sink rest
            { st₁ with
                batch := []
                total := st₁.total + c
                callIdx := st₁.callIdx + 1
                calls := st₁.calls ++ [b] }
        | .error _ =>
          importGo thr sink rest
            { st₁ with
                batch := []
                callIdx := st₁.callIdx + 1
                calls := st₁.calls ++ [b] }
      else
        importGo thr sink rest { st₁ with batch := b }

/-- One full ingestion run over `rows` with batch threshold `thr`. -/
def importRun (rows : List CsvRow) (thr : Nat)
    (sink : Nat → Except String Nat) : ImportRes :=
  importGo thr sink rows ⟨0, 0, [], 0, 0, []⟩

/-! Egress: `HubSpotSyncService`. -/

/-- Embedding of the JS `toLowerCase()` (ASCII range, which covers the
dataset's values). -/
def lowerStr (s : String) : String := ⟨s.data.map Char.toLower⟩

/-- Helper for `replace(/\s+/g, d)`: each maximal run of whitespace
characters becomes a single dot. `prevWs` records whether the previous
character belonged to a whitespace run already replaced. -/
def wsGo (prevWs : Bool) : List Char → List Char
  | [] => []
  | c :: cs =>
    if c.isWhitespace then
      if prevWs then wsGo true cs else '.' :: wsGo true cs
    else c :: wsGo false cs

/-- Embedding of `name.replace(/\s+/g, '.')`. -/
def collapseWs (s : String) : String := ⟨wsGo false s.data⟩

/-- The name part of the derived upsert key:
`name.toLowerCase().replace(/\s+/g, '.')`. -/
def normName (s : String) : String := collapseWs (lowerStr s)

/-- The derived upsert identifier built in `formatContactForHubSpot`. -/
def contactEmail (name sex : String) : String :=
  normName name ++ "." ++ lowerStr sex ++ "@babynamesdemo.com"

/-- The destination representation's properties
(`formatContactForHubSpot`'s return value). -/
structure Contact where
  email : String
  firstname : String
  lastname : String
  hs_lead_status : String
  lifecyclestage : String
deriving DecidableEq, Repr

/-- Embedding of `HubSpotSyncService.formatContactForHubSpot`. -/
def formatContactForHubSpot (babyName : BabyRow) : Contact :=
  { email := contactEmail babyName.name babyName.sex
    firstname := babyName.name
    lastname := if babyName.sex = "M" then "Male" else "Female"
    hs_lead_status := "NEW"
    lifecyclestage := "subscriber" }

/-- Ordering directive of a sequelize query; the only one relevant here is
sorting by the ascending surrogate id. -/
inductive SortSpec where
  | ascId
deriving DecidableEq, Repr

/-- The options object handed to `BabyName.findAll`. The source builds
`{ limit, offset, raw: true, logging: false }` — the `order` key is an
optional parameter of the query interface that the sync service leaves
unset. -/
structure FindAllOptions where
  limit : Nat
  offset : Nat
  order : Option SortSpec
  raw : Bool
  logging : Bool
deriving DecidableEq, Repr

/-- The exact options object built at the `findAll` call site inside
`HubSpotSyncService.sync`. -/
def syncFetchOptions (limit offset : Nat) : FindAllOptions :=
  { limit := limit, offset := offset, order := none
    raw := true, logging := false }

/-- Sorting a store by the surrogate id (insertion step). -/
def insertById (r : BabyRow) : List BabyRow → List BabyRow
  | [] => [r]
  | x :: xs => if r.id ≤ x.id then r :: x :: xs else x :: insertById r xs

/-- The rows sorted by ascending surrogate id: what an explicit
`order: [[id, ASC]]` clause would return. -/
def sortById (l : List BabyRow) : List BabyRow := l.foldr insertById []

/-- Semantics of `findAll` over a store. `store` is the sequence of rows
the database backend presents to a query that specifies no ordering; a
query that does specify `order: ascId` reads the rows sorted by the
surrogate id instead. `LIMIT l OFFSET o` drops `o` rows and returns at
most `l`. -/
def findAll (store : List BabyRow) (opts : FindAllOptions) : List BabyRow :=
  let base :=
    match opts.order with
    | none => store
    | some .ascId => sortById store
  (base.drop opts.offset).take opts.limit

/-- HubSpot batch limit: `this.batchSize = 100`. -/
def hubspotBatchSize : Nat := 100

/-- State of the egress loop in the success path: the running
`totalSynced` counter, the accumulating `currentBatch`, the batches handed
to `sendBatchToHubSpot` in order, and the `(offset, limit)` pair of every
`findAll` call issued. -/
structure SyncState where
  totalSynced : Nat
  currentBatch : List Contact
  calls : List (List Contact)
  fetches : List (Nat × Nat)
deriving DecidableEq, Repr

/-- The `for (const record of records)` body: stop early once the limit is
reached, otherwise format the record, push it, and send the batch when it
reaches `batchSize`. -/
def processRecords (maxN : Nat) : List BabyRow → SyncState → SyncState
  | [], st => st
  | r :: rs, st =>
    if maxN ≤ st.totalSynced then st
    else
      let b := st.currentBatch ++ [formatContactForHubSpot r]
      if hubspotBatchSize ≤ b.length then
        processRecords maxN rs
          { st with
              totalSynced := st.totalSynced + b.length
              currentBatch := []
              calls := st.calls ++ [b] }
      else
        processRecords maxN rs { st with currentBatch := b }

/-- The "send remaining batch if any" block, duplicated in the source at
both loop exits (source exhausted, and sync limit reached). -/
def flushFinal (st : SyncState) : SyncState :=
  if 0 < st.currentBatch.length then
    { st with
        totalSynced := st.totalSynced + st.currentBatch.length
        currentBatch := []
        calls := st.calls ++ [st.currentBatch] }
  else st

/-- Embedding of the `while (totalSynced < maxContactsToSync)` loop of
`HubSpotSyncService.sync` (success path: every remote call succeeds).
Each iteration computes `fetchLimit = min(pageSize, max - totalSynced)`,
fetches a page, processes it, and advances `offset` by `pageSize`. -/
def syncLoop (pageSize maxN : Nat) (store : List BabyRow)
    (st : SyncState) (offset : Nat) : SyncState :=
  if st.totalSynced < maxN then
    let fetchLimit := min pageSize (maxN - st.totalSynced)
    let records := findAll store (syncFetchOptions fetchLimit offset)
    let st₁ : SyncState := { st with fetches := st.fetches ++ [(offset, fetchLimit)] }
    if hrec : records = [] then flushFinal st₁
    else
      let st' := processRecords maxN records st₁
      if maxN ≤ st'.totalSynced then flushFinal st'
      else syncLoop pageSize maxN store st' (offset + pageSize)
  else st
termination_by store.length - offset
decreasing_by
  simp_wf
  unfold records fetchLimit at hrec
  simp only [findAll, syncFetchOptions] at hrec
  have hdrop : ¬ store.drop offset = [] := by
    intro h
    exact hrec (by simp [h])
  rw [List.drop_eq_nil_iff, not_le] at hdrop
  have hpos : 0 < pageSize := by
    rcases Nat.eq_zero_or_pos pageSize with h0 | h
    · exact absurd (by simp [h0]) hrec
    · exact h
  exact Nat.sub_lt_sub_left hdrop (Nat.lt_add_of_pos_right hpos)

/-- The egress run with page size made explicit
(`const pageSize = 5000` in the source). -/
def syncWith (pageSize maxContacts : Nat) (store : List BabyRow) : SyncState :=
  syncLoop pageSize maxContacts store ⟨0, [], [], []⟩ 0

/-- Embedding of `HubSpotSyncService.sync` with the source's constants:
page size 5000, HubSpot batch size 100, and the delivery cap
`maxContactsToSync` taken from the environment. -/
def sync (maxContacts : Nat) (store : List BabyRow) : SyncState :=
  syncWith 5000 maxContacts store

/-- A store of `n` rows presented in insertion order: ids 1..n. -/
def mkStore (n : Nat) : List BabyRow :=
  (List.range' 1 n).map (fun i => ⟨i, "a", "M"⟩)

/-! Egress with a scripted remote: the same run, with
`sendBatchToHubSpot`'s error handling made explicit. The remote is a
script listing the response to each HTTP attempt in order. -/

/-- Response of one HTTP attempt against the batch-upsert endpoint,
as discriminated by `sendBatchToHubSpot`'s catch handler: success,
status 401, status 429, status 400, or any other failure. -/
inductive HubResp where
  | success
  | unauthorized
  | throttled
  | badRequest
  | serverError
deriving DecidableEq, Repr

/-- Error that aborts the egress run. `authError` is the
`AppError('HUBSPOT_AUTH_ERROR', 401, ...)` thrown on status 401;
`validationError` the rethrown status-400 error; `transportError` any
other rethrown remote failure; `starved` is a modelling artifact meaning
the response script ran out mid-send. -/
inductive SyncError where
  | authError
  | validationError
  | transportError
  | starved
deriving DecidableEq, Repr

/-- Result of one `sendBatchToHubSpot(batch)` call: the outcome (`none`
means delivered), the unconsumed remainder of the response script, the
number of HTTP attempts made, the number of wait-and-retry cycles
(one per 429), and the successful deliveries of the batch. -/
structure SendRes where
  outcome : Option SyncError
  rest : List HubResp
  attempts : Nat
  waits : Nat
  deliveredBatches : List (List Contact)
deriving DecidableEq, Repr

/-- Embedding of `sendBatchToHubSpot`: post the batch; on 401 throw an
auth error, on 429 wait one second and retry the identical batch
(unbounded recursion, structural here on the response script), on 400 log
and rethrow, on anything else rethrow. -/
def sendBatchR (batch : List Contact) : List HubResp → SendRes
  | [] => ⟨some .starved, [], 0, 0, []⟩
  | .success :: rest => ⟨none, rest, 1, 0, [batch]⟩
  | .unauthorized :: rest => ⟨some .authError, rest, 1, 0, []⟩
  | .throttled :: rest =>
    let s := sendBatchR batch rest
    ⟨s.outcome, s.rest, s.attempts + 1, s.waits + 1, s.deliveredBatches⟩
  | .badRequest :: rest => ⟨some .validationError, rest, 1, 0, []⟩
  | .serverError :: rest => ⟨some .transportError, rest, 1, 0, []⟩

/-- State of the scripted egress run: the counters of the plain run, plus
the unconsumed response script, the cumulative number of HTTP attempts,
and the batches successfully delivered. -/
structure SyncRState where
  totalSynced : Nat
  currentBatch : List Contact
  script : List HubResp
  attempts : Nat
  delivered : List (List Contact)
deriving DecidableEq, Repr

/-- One `await this.sendBatchToHubSpot(currentBatch)` followed by
`totalSynced += currentBatch.length; currentBatch = []` on success; a
thrown error aborts the run with the state at the throw site. -/
def flushBatchR (st : SyncRState) : Except (SyncError × SyncRState) SyncRState :=
  let s := sendBatchR st.currentBatch st.script
  let base : SyncRState :=
    { st with
        script := s.rest
        attempts := st.attempts + s.attempts
        delivered := st.delivered ++ s.deliveredBatches }
  match s.outcome with
  | none =>
    .ok { base with
            totalSynced := st.totalSynced + st.currentBatch.length
            currentBatch := [] }
  | some e => .error (e, base)

/-- The `for (const record of records)` body under the scripted remote; a
thrown send error propagates out of the loop. -/
def processRecordsR (maxN : Nat) :
    List BabyRow → SyncRState → Except (SyncError × SyncRState) SyncRState
  | [], st => .ok st
  | r :: rs, st =>
    if maxN ≤ st.totalSynced then .ok st
    else
      let b := st.currentBatch ++ [formatContactForHubSpot r]
      if hubspotBatchSize ≤ b.length then
        match flushBatchR { st with currentBatch := b } with
        | .ok st' => processRecordsR maxN rs st'
        | .error e => .error e
      else processRecordsR maxN rs { st with currentBatch := b }

/-- The `while (totalSynced < maxContactsToSync)` loop under the scripted
remote. -/
def syncLoopR (pageSize maxN : Nat) (store : List BabyRow)
    (st : SyncRState) (offset : Nat) : Except (SyncError × SyncRState) SyncRState :=
  if st.totalSynced < maxN then
    let fetchLimit := min pageSize (maxN - st.totalSynced)
    let records := findAll store (syncFetchOptions fetchLimit offset)
    if hrec : records = [] then
      if 0 < st.currentBatch.length then flushBatchR st else .ok st
    else
      -- a non-empty fetch found a row at `offset` with a positive limit,
      -- which bounds the loop measure for the recursive call below
      have hoff : store.length - (offset + pageSize) < store.length - offset := by
        have hdrop : ¬ store.drop offset = [] := by
          intro h0
          apply hrec
          show (store.drop offset).take (min pageSize (maxN - st.totalSynced)) = []
          rw [h0]
          simp
        rw [List.drop_eq_nil_iff, not_le] at hdrop
        have hpos : 0 < pageSize := by
          rcases Nat.eq_zero_or_pos pageSize with h0 | hp
          · refine absurd ?_ hrec
            show (store.drop offset).take (min pageSize (maxN - st.totalSynced)) = []
            rw [h0]
            simp
          · exact hp
        exact Nat.sub_lt_sub_left hdrop (Nat.lt_add_of_pos_right hpos)
      match processRecordsR maxN records st with
      | .error e => .error e
      | .ok st' =>
        if maxN ≤ st'.totalSynced then
          if 0 < st'.currentBatch.length then flushBatchR st' else .ok st'
        else syncLoopR pageSize maxN store st' (offset + pageSize)
  else .ok st
termination_by store.length - offset
decreasing_by
  simp_wf
  exact hoff

/-- One full egress run against a scripted remote, with the source's
page size 5000: `.ok` carries the final state of a completed run, `.error`
the thrown error together with the state at the throw site. -/
def syncR (script : List HubResp) (maxContacts : Nat) (store : List BabyRow) :
    Except (SyncError × SyncRState) SyncRState :=
  syncLoopR 5000 maxContacts store ⟨0, [], script, 0, []⟩ 0

/-! Numeric shadow of the egress loop: the run's counters only. The
lemmas `processRecords_proj` and `syncLoop_proj` show that the projection
of the run state (total synced, current batch length, sizes of the sent
batches, fetch log) is computed by this shadow from the store's length
alone, which makes runs over large stores cheap to evaluate. -/

/-- Counter projection of a `SyncState`. -/
structure NState where
  total : Nat
  blen : Nat
  callLens : List Nat
  fetches : List (Nat × Nat)
deriving DecidableEq, Repr

/-- Projection of the egress state to its counters. -/
def proj (st : SyncState) : NState :=
  ⟨st.totalSynced, st.currentBatch.length, st.calls.map List.length, st.fetches⟩

/-- Counter shadow of `processRecords` over `k` fetched records. -/
def processN (maxN : Nat) : Nat → NState → NState
  | 0, s => s
  | k + 1, s =>
    if maxN ≤ s.total then s
    else
      if hubspotBatchSize ≤ s.blen + 1 then
        processN maxN k ⟨s.total + (s.blen + 1), 0, s.callLens ++ [s.blen + 1], s.fetches⟩
      else
        processN maxN k ⟨s.total, s.blen + 1, s.callLens, s.fetches⟩

/-- Counter shadow of `flushFinal`. -/
def flushFinalN (s : NState) : NState :=
  if 0 < s.blen then ⟨s.total + s.blen, 0, s.callLens ++ [s.blen], s.fetches⟩ else s

/-- Counter shadow of `syncLoop` over a store of `n` rows. `fuel` is a
structural-recursion artifact: one unit is consumed per page fetch, and
`syncLoop_proj` shows that any `fuel` exceeding `n - offset` computes the
projection of the run exactly. -/
def syncLoopN (fuel : Nat) (pageSize maxN n : Nat) (s : NState) (offset : Nat) : NState :=
  match fuel with
  | 0 => s
  | fuel + 1 =>
    if s.total < maxN then
      let fetchLimit := min pageSize (maxN - s.total)
      let k := min fetchLimit (n - offset)
      let s₁ : NState := ⟨s.total, s.blen, s.callLens, s.fetches ++ [(offset, fetchLimit)]⟩
      if k = 0 then flushFinalN s₁
      else
        let s' := processN maxN k s₁
        if maxN ≤ s'.total then flushFinalN s'
        else syncLoopN fuel pageSize maxN n s' (offset + pageSize)
    else s

/-! Batch-size invariant on the counter shadow. -/

/-- Invariant carried by the record loop: every batch sent so far had
between 1 and 100 entries, and the accumulating batch is strictly below
the batch limit. -/
def NInv (s : NState) : Prop :=
  (∀ x ∈ s.callLens, 0 < x ∧ x ≤ hubspotBatchSize) ∧ s.blen < hubspotBatchSize

/-! Lemmas relating the runs to their counter shadows, and the
properties of the embedded services. -/

theorem mkStore_length (n : Nat) : (mkStore n).length = n := by
  simp [mkStore]

/-- Sending any batch against a script whose next response is 401 throws
the auth error after exactly that one attempt, with no delivery. -/
theorem flushBatchR_unauth {rest : List HubResp} (st : SyncRState)
    (h : st.script = .unauthorized :: rest) :
    flushBatchR st = .error (.authError,
      { st with script := rest, attempts := st.attempts + 1 }) := by
  unfold flushBatchR
  rw [h]
  simp [sendBatchR]

/-- While the next scripted response is 401 and no attempt has been made,
the record loop either completes without any send (invariant kept), or
aborts with the auth error after exactly one attempt. -/
theorem processRecordsR_unauth (maxN : Nat) (rest : List HubResp) :
    ∀ (rs : List BabyRow) (st : SyncRState),
      st.script = .unauthorized :: rest → st.attempts = 0 →
      (∃ st', processRecordsR maxN rs st = .ok st'
          ∧ st'.script = .unauthorized :: rest ∧ st'.attempts = 0)
      ∨ (∃ st', processRecordsR maxN rs st = .error (.authError, st')
          ∧ st'.attempts = 1) := by
  intro rs
  induction rs with
  | nil =>
    intro st h1 h2
    exact .inl ⟨st, rfl, h1, h2⟩
  | cons r rs ih =>
    intro st h1 h2
    rw [processRecordsR]
    by_cases hstop : maxN ≤ st.totalSynced
    · rw [if_pos hstop]
      exact .inl ⟨st, rfl, h1, h2⟩
    · rw [if_neg hstop]
      by_cases hfull : hubspotBatchSize ≤ (st.currentBatch ++ [formatContactForHubSpot r]).length
      · rw [if_pos hfull]
        have hb : ({ st with currentBatch := st.currentBatch ++ [formatContactForHubSpot r] }
            : SyncRState).script = .unauthorized :: rest := h1
        rw [flushBatchR_unauth _ hb]
        right
        exact ⟨_, rfl, by simp [h2]⟩
      · rw [if_neg hfull]
        exact ih _ h1 h2

/-- While the next scripted response is 401 and no attempt has been made
yet, the whole egress loop either finishes without ever calling the remote
(zero attempts), or aborts with the auth error after exactly one
attempt. -/
theorem syncLoopR_unauth (pageSize maxN : Nat) (store : List BabyRow)
    (rest : List HubResp) :
    ∀ (st : SyncRState) (offset : Nat),
      st.script = .unauthorized :: rest → st.attempts = 0 →
      (∃ st', syncLoopR pageSize maxN store st offset = .ok st' ∧ st'.attempts = 0)
      ∨ (∃ st', syncLoopR pageSize maxN store st offset = .error (.authError, st')
          ∧ st'.attempts = 1) := by
  intro st offset
  induction st, offset using syncLoopR.induct pageSize maxN store with
  | case1 st offset hlt fl recs hrec hbatch =>
    intro h1 h2
    unfold recs fl at hrec
    rw [syncLoopR]
    simp only [hlt, if_true, hrec, eq_self_iff_true, dite_true, hbatch]
    rw [flushBatchR_unauth st h1]
    right
    exact ⟨_, rfl, by simp [h2]⟩
  | case2 st offset hlt fl recs hrec hbatch =>
    intro h1 h2
    unfold recs fl at hrec
    rw [syncLoopR]
    simp only [hlt, if_true, hrec, eq_self_iff_true, dite_true, hbatch, if_false]
    exact .inl ⟨st, rfl, h2⟩
  | case3 st offset hlt fl recs hrec hoff e herr =>
    intro h1 h2
    unfold recs fl at hrec herr
    rcases processRecordsR_unauth maxN rest _ st h1 h2 with ⟨st', hok, _, _⟩ | ⟨st', herr', hatt⟩
    · rw [hok] at herr
      cases herr
    · rw [herr'] at herr
      cases herr
      rw [syncLoopR]
      simp only [hlt, if_true, hrec, dite_false, not_false_iff, herr']
      right
      exact ⟨st', rfl, hatt⟩
  | case4 st offset hlt fl recs hrec hoff st' hok hcap hbatch =>
    intro h1 h2
    unfold recs fl at hrec hok
    rcases processRecordsR_unauth maxN rest _ st h1 h2 with ⟨st'', hok', hs, ha⟩ | ⟨st'', herr', _⟩
    · rw [hok] at hok'
      cases hok'
      rw [syncLoopR]
      simp only [hlt, if_true, hrec, dite_false, not_false_iff, hok, hcap, hbatch, if_true]
      rw [flushBatchR_unauth st' hs]
      right
      exact ⟨_, rfl, by simp [ha]⟩
    · rw [hok] at herr'
      cases herr'
  | case5 st offset hlt fl recs hrec hoff st' hok hcap hbatch =>
    intro h1 h2
    unfold recs fl at hrec hok
    rcases processRecordsR_unauth maxN rest _ st h1 h2 with ⟨st'', hok', hs, ha⟩ | ⟨st'', herr', _⟩
    · rw [hok] at hok'
      cases hok'
      rw [syncLoopR]
      simp only [hlt, if_true, hrec, dite_false, not_false_iff, hok, hcap, hbatch, if_false]
      exact .inl ⟨st', rfl, ha⟩
    · rw [hok] at herr'
      cases herr'
  | case6 st offset hlt fl recs hrec hoff st' hok hcap ih =>
    intro h1 h2
    unfold recs fl at hrec hok
    rcases processRecordsR_unauth maxN rest _ st h1 h2 with ⟨st'', hok', hs, ha⟩ | ⟨st'', herr', _⟩
    · rw [hok] at hok'
      cases hok'
      rw [syncLoopR]
      simp only [hlt, if_true, hrec, dite_false, not_false_iff, hok, hcap, if_false]
      exact ih hs ha
    · rw [hok] at herr'
      cases herr'
  | case7 st offset hlt =>
    intro h1 h2
    rw [syncLoopR]
    simp only [hlt, if_false]
    exact .inl ⟨st, rfl, h2⟩

theorem proj_total (st : SyncState) : (proj st).total = st.totalSynced := rfl

theorem proj_blen (st : SyncState) : (proj st).blen = st.currentBatch.length := rfl

theorem proj_callLens (st : SyncState) :
    (proj st).callLens = st.calls.map List.length := rfl

theorem proj_fetches (st : SyncState) : (proj st).fetches = st.fetches := rfl

theorem findAll_syncFetch (store : List BabyRow) (l o : Nat) :
    findAll store (syncFetchOptions l o) = (store.drop o).take l := rfl

theorem length_findAll (store : List BabyRow) (l o : Nat) :
    (findAll store (syncFetchOptions l o)).length = min l (store.length - o) := by
  simp [findAll_syncFetch]

theorem flushFinal_proj (st : SyncState) :
    proj (flushFinal st) = flushFinalN (proj st) := by
  rw [flushFinal, flushFinalN]
  by_cases h : 0 < st.currentBatch.length <;> simp [proj, h]

theorem processRecords_proj (maxN : Nat) (rs : List BabyRow) (st : SyncState) :
    proj (processRecords maxN rs st) = processN maxN rs.length (proj st) := by
  induction rs generalizing st with
  | nil => rfl
  | cons r rs ih =>
    rw [processRecords, List.length_cons, processN]
    by_cases hstop : maxN ≤ st.totalSynced
    · rw [if_pos hstop, if_pos (show maxN ≤ (proj st).total from hstop)]
    · rw [if_neg hstop, if_neg (show ¬ maxN ≤ (proj st).total from hstop)]
      have hblen : (st.currentBatch ++ [formatContactForHubSpot r]).length
          = st.currentBatch.length + 1 := by simp
      by_cases hfull : hubspotBatchSize ≤ st.currentBatch.length + 1
      · rw [if_pos (hblen ▸ hfull), if_pos (show hubspotBatchSize ≤ (proj st).blen + 1 from hfull)]
        rw [ih]
        congr 1
        simp [proj, hblen]
      · rw [if_neg (hblen ▸ hfull), if_neg (show ¬ hubspotBatchSize ≤ (proj st).blen + 1 from hfull)]
        rw [ih]
        congr 1
        simp [proj, hblen]

theorem syncLoop_proj (pageSize maxN : Nat) (store : List BabyRow)
    (st : SyncState) (offset : Nat) :
    ∀ fuel, store.length - offset < fuel →
      proj (syncLoop pageSize maxN store st offset)
        = syncLoopN fuel pageSize maxN store.length (proj st) offset := by
  induction st, offset using syncLoop.induct pageSize maxN store with
  | case1 st offset hlt fl recs hrec =>
    intro fuel hf
    rcases fuel with _ | fuel
    · omega
    unfold recs fl at hrec
    have hk : pageSize ⊓ (maxN - st.totalSynced) ⊓ (store.length - offset) = 0 := by
      have h0 := length_findAll store (pageSize ⊓ (maxN - st.totalSynced)) offset
      rw [hrec] at h0
      simpa using h0.symm
    rw [syncLoop, syncLoopN]
    simp only [proj_total, proj_blen, proj_callLens, proj_fetches]
    simp only [hlt, if_true, hrec, hk, eq_self_iff_true, dite_true]
    rw [flushFinal_proj]
    rfl
  | case2 st offset hlt fl recs st1 hrec stp hcap =>
    intro fuel hf
    rcases fuel with _ | fuel
    · omega
    unfold recs fl at hrec
    unfold stp st1 recs fl at hcap
    have hlen : (findAll store (syncFetchOptions (pageSize ⊓ (maxN - st.totalSynced)) offset)).length
        = pageSize ⊓ (maxN - st.totalSynced) ⊓ (store.length - offset) :=
      length_findAll store _ offset
    have hkne : ¬ pageSize ⊓ (maxN - st.totalSynced) ⊓ (store.length - offset) = 0 := by
      rw [← hlen, List.length_eq_zero]
      exact hrec
    have hp : proj (processRecords maxN
        (findAll store (syncFetchOptions (pageSize ⊓ (maxN - st.totalSynced)) offset))
        { st with fetches := st.fetches ++ [(offset, pageSize ⊓ (maxN - st.totalSynced))] })
        = processN maxN (pageSize ⊓ (maxN - st.totalSynced) ⊓ (store.length - offset))
            ⟨st.totalSynced, st.currentBatch.length, st.calls.map List.length,
              st.fetches ++ [(offset, pageSize ⊓ (maxN - st.totalSynced))]⟩ := by
      rw [processRecords_proj, hlen]
      rfl
    have hcap' : maxN ≤ (processN maxN (pageSize ⊓ (maxN - st.totalSynced) ⊓ (store.length - offset))
        ⟨st.totalSynced, st.currentBatch.length, st.calls.map List.length,
          st.fetches ++ [(offset, pageSize ⊓ (maxN - st.totalSynced))]⟩).total := by
      rw [← hp]
      exact hcap
    rw [syncLoop, syncLoopN]
    simp only [proj_total, proj_blen, proj_callLens, proj_fetches]
    simp only [hlt, if_true, hrec, hkne, hcap, hcap', eq_self_iff_true,
      dite_true, dite_false, if_false, not_false_iff]
    rw [flushFinal_proj, hp]
  | case3 st offset hlt fl recs st1 hrec stp hcap ih =>
    intro fuel hf
    rcases fuel with _ | fuel
    · omega
    unfold recs fl at hrec
    unfold stp st1 recs fl at hcap
    unfold stp st1 recs fl at ih
    have hlen : (findAll store (syncFetchOptions (pageSize ⊓ (maxN - st.totalSynced)) offset)).length
        = pageSize ⊓ (maxN - st.totalSynced) ⊓ (store.length - offset) :=
      length_findAll store _ offset
    have hkne : ¬ pageSize ⊓ (maxN - st.totalSynced) ⊓ (store.length - offset) = 0 := by
      rw [← hlen, List.length_eq_zero]
      exact hrec
    have hp : proj (processRecords maxN
        (findAll store (syncFetchOptions (pageSize ⊓ (maxN - st.totalSynced)) offset))
        { st with fetches := st.fetches ++ [(offset, pageSize ⊓ (maxN - st.totalSynced))] })
        = processN maxN (pageSize ⊓ (maxN - st.totalSynced) ⊓ (store.length - offset))
            ⟨st.totalSynced, st.currentBatch.length, st.calls.map List.length,
              st.fetches ++ [(offset, pageSize ⊓ (maxN - st.totalSynced))]⟩ := by
      rw [processRecords_proj, hlen]
      rfl
    have hcap' : ¬ maxN ≤ (processN maxN (pageSize ⊓ (maxN - st.totalSynced) ⊓ (store.length - offset))
        ⟨st.totalSynced, st.currentBatch.length, st.calls.map List.length,
          st.fetches ++ [(offset, pageSize ⊓ (maxN - st.totalSynced))]⟩).total := by
      rw [← hp]
      exact hcap
    rw [syncLoop, syncLoopN]
    simp only [proj_total, proj_blen, proj_callLens, proj_fetches]
    simp only [hlt, if_true, hrec, hkne, hcap, hcap', eq_self_iff_true,
      dite_true, dite_false, if_false, not_false_iff]
    have hoff : offset < store.length := by
      by_contra hc
      push_neg at hc
      exact hrec (by rw [findAll_syncFetch, List.drop_eq_nil_of_le hc]; simp)
    have hps : 0 < pageSize := by
      by_contra hc
      push_neg at hc
      have h0 : pageSize = 0 := Nat.le_zero.mp hc
      exact hrec (by rw [findAll_syncFetch]; simp [h0])
    have hless : store.length - (offset + pageSize) < fuel := by omega
    rw [ih fuel hless, hp]
  | case4 st offset hlt =>
    intro fuel hf
    rcases fuel with _ | fuel
    · omega
    rw [syncLoop, syncLoopN]
    simp only [proj_total, proj_blen, proj_callLens, proj_fetches]
    simp only [hlt, if_false]

theorem processN_inv (maxN : Nat) :
    ∀ (k : Nat) (s : NState), NInv s → NInv (processN maxN k s) := by
  intro k
  induction k with
  | zero => intro s h; exact h
  | succ k ih =>
    intro s h
    rw [processN]
    by_cases hstop : maxN ≤ s.total
    · rw [if_pos hstop]; exact h
    · rw [if_neg hstop]
      by_cases hfull : hubspotBatchSize ≤ s.blen + 1
      · rw [if_pos hfull]
        apply ih
        refine ⟨?_, ?_⟩
        · intro x hx
          rcases List.mem_append.mp hx with hx | hx
          · exact h.1 x hx
          · have hx' : x = s.blen + 1 := List.mem_singleton.mp hx
            subst hx'
            exact ⟨Nat.succ_pos _, Nat.succ_le_of_lt h.2⟩
        · show 0 < hubspotBatchSize
          decide
      · rw [if_neg hfull]
        apply ih
        refine ⟨h.1, ?_⟩
        show s.blen + 1 < hubspotBatchSize
        omega

theorem flushFinalN_inv (s : NState) (h : NInv s) :
    ∀ x ∈ (flushFinalN s).callLens, 0 < x ∧ x ≤ hubspotBatchSize := by
  rw [flushFinalN]
  by_cases hb : 0 < s.blen
  · rw [if_pos hb]
    intro x hx
    rcases List.mem_append.mp hx with hx | hx
    · exact h.1 x hx
    · have hx' : x = s.blen := List.mem_singleton.mp hx
      subst hx'
      exact ⟨hb, Nat.le_of_lt h.2⟩
  · rw [if_neg hb]
    exact h.1

theorem syncLoopN_inv :
    ∀ (fuel pageSize maxN n : Nat) (s : NState) (offset : Nat), NInv s →
      ∀ x ∈ (syncLoopN fuel pageSize maxN n s offset).callLens,
        0 < x ∧ x ≤ hubspotBatchSize := by
  intro fuel
  induction fuel with
  | zero => intro pageSize maxN n s offset h; exact h.1
  | succ fuel ih =>
    intro pageSize maxN n s offset h
    rw [syncLoopN]
    by_cases hlt : s.total < maxN
    · rw [if_pos hlt]
      by_cases hk : min (min pageSize (maxN - s.total)) (n - offset) = 0
      · rw [if_pos hk]
        exact flushFinalN_inv _ ⟨h.1, h.2⟩
      · rw [if_neg hk]
        have hinv : NInv (processN maxN (min (min pageSize (maxN - s.total)) (n - offset))
            ⟨s.total, s.blen, s.callLens, s.fetches ++ [(offset, min pageSize (maxN - s.total))]⟩) :=
          processN_inv maxN _ _ ⟨h.1, h.2⟩
        by_cases hcap : maxN ≤ (processN maxN (min (min pageSize (maxN - s.total)) (n - offset))
            ⟨s.total, s.blen, s.callLens, s.fetches ++ [(offset, min pageSize (maxN - s.total))]⟩).total
        · rw [if_pos hcap]
          exact flushFinalN_inv _ hinv
        · rw [if_neg hcap]
          exact ih pageSize maxN n _ _ hinv
    · rw [if_neg hlt]
      exact h.1

/-! Error propagation of the ingestion run. -/

/-- The ingestion run rejects exactly when the stream ended with a
non-empty leftover batch and the store's answer to the final
`bulkCreate` call was a write error; every mid-run write error is
swallowed by the `.catch` handler and never reaches the promise. -/
theorem importGo_error_iff (thr : Nat) (sink : Nat → Except String Nat) :
    ∀ (rows : List CsvRow) (st : ImpSt) (e : String),
      (importGo thr sink rows st).result = .error e
        ↔ ((importGo thr sink rows st).finalBatch ≠ []
            ∧ sink (importGo thr sink rows st).midCalls = .error e) := by
  intro rows
  induction rows with
  | nil =>
    intro st e
    rw [importGo]
    by_cases hb : st.batch = []
    · rw [if_pos hb]
      simp [hb]
    · rw [if_neg hb]
      cases hsink : sink st.callIdx with
      | ok c => simp [hb, hsink]
      | error e2 => simp [hb, hsink, eq_comm]
  | cons row rest ih =>
    intro st e
    rw [importGo]
    by_cases hv : rowInvalid row
    · rw [if_pos hv]
      exact ih _ e
    · rw [if_neg hv]
      by_cases hthr : thr ≤ (st.batch ++ [processRow row]).length
      · rw [if_pos hthr]
        cases hsink : sink st.callIdx with
        | ok c =>
          simp only [hsink]
          exact ih _ e
        | error e2 =>
          simp only [hsink]
          exact ih _ e
      · rw [if_neg hthr]
        exact ih _ e

/-! Injectivity of the derived upsert key. -/

/-- Two list appends that share the tail beyond one distinguished element
agree on the prefix and on that element. -/
theorem cons_suffix_inj {x y t : List Char} {c d : Char}
    (h : x ++ c :: t = y ++ d :: t) : x = y ∧ c = d := by
  have hlen : x.length = y.length := by
    have hl := congrArg List.length h
    simp at hl
    omega
  obtain ⟨h1, h2⟩ := List.append_inj h hlen
  injection h2 with hc _
  exact ⟨h1, hc⟩

theorem email_tail_inj {a b : List Char} {c d : Char} {D : List Char}
    (h : (a ++ ['.']) ++ c :: D = (b ++ ['.']) ++ d :: D) : a = b ∧ c = d := by
  obtain ⟨h1, h2⟩ := cons_suffix_inj h
  obtain ⟨h3, _⟩ := cons_suffix_inj h1
  exact ⟨h3, h2⟩

/-- The character data of the derived key, in suffix-normal form, for a
row whose sex is the single character the store's enum allows. -/
theorem contactEmail_data_M (n : String) :
    (contactEmail n "M").data
      = (((normName n).data ++ ['.']) ++ 'm' :: "@babynamesdemo.com".data) := by
  have hm : ("M".data.map Char.toLower) = ['m'] := by decide
  simp [contactEmail, String.data_append, lowerStr, hm]

theorem contactEmail_data_F (n : String) :
    (contactEmail n "F").data
      = (((normName n).data ++ ['.']) ++ 'f' :: "@babynamesdemo.com".data) := by
  have hf : ("F".data.map Char.toLower) = ['f'] := by decide
  simp [contactEmail, String.data_append, lowerStr, hf]

/-- Over the store's enum values M and F, the derived key identifies
exactly the pairs (normalized name, sex). -/
theorem contactEmail_inj_mf {n1 n2 s1 s2 : String}
    (hs1 : s1 = "M" ∨ s1 = "F") (hs2 : s2 = "M" ∨ s2 = "F") :
    contactEmail n1 s1 = contactEmail n2 s2
      ↔ (normName n1 = normName n2 ∧ s1 = s2) := by
  constructor
  · intro h
    have hd := congrArg String.data h
    rcases hs1 with rfl | rfl <;> rcases hs2 with rfl | rfl
    · rw [contactEmail_data_M, contactEmail_data_M] at hd
      obtain ⟨ha, _⟩ := email_tail_inj hd
      exact ⟨String.ext ha, rfl⟩
    · rw [contactEmail_data_M, contactEmail_data_F] at hd
      obtain ⟨_, hc⟩ := email_tail_inj hd
      cases hc
    · rw [contactEmail_data_F, contactEmail_data_M] at hd
      obtain ⟨_, hc⟩ := email_tail_inj hd
      cases hc
    · rw [contactEmail_data_F, contactEmail_data_F] at hd
      obtain ⟨ha, _⟩ := email_tail_inj hd
      exact ⟨String.ext ha, rfl⟩
  · rintro ⟨hn, rfl⟩
    rw [contactEmail, contactEmail, hn]

/-! Closed-form runs of the counter shadow used by the cap claims. -/

/-- Second page of a cap-150 run that starts with 100 delivered and 50
accumulated: the fetch at offset 5000 of a store of at most 5000 rows is
empty, so the partial batch of 50 is flushed and the loop stops. -/
theorem syncLoopN_page2 (fuel n : Nat) (fs : List (Nat × Nat))
    (hfuel : 0 < fuel) (hn : n ≤ 5000) :
    syncLoopN fuel 5000 150 n ⟨100, 50, [100], fs⟩ 5000
      = ⟨150, 0, [100, 50], fs ++ [(5000, 50)]⟩ := by
  cases fuel with
  | zero => omega
  | succ fuel =>
    rw [syncLoopN]
    have h0 : n - 5000 = 0 := Nat.sub_eq_zero_of_le hn
    simp [h0, flushFinalN]

/-- Full cap-150 run of the shadow over a store of between 150 and 5000
rows: one call of 100, a final flush of 50, 150 delivered in total. -/
theorem syncLoopN_cap150 (n : Nat) (h1 : 150 ≤ n) (h2 : n ≤ 5000) :
    syncLoopN (n + 1) 5000 150 n ⟨0, 0, [], []⟩ 0
      = ⟨150, 0, [100, 50], [(0, 150), (5000, 50)]⟩ := by
  rw [syncLoopN]
  have hn0 : n - 0 = n := by omega
  have hfl : (5000 : Nat) ⊓ (150 - (⟨0, 0, [], []⟩ : NState).total) = 150 := by decide
  have hk : (150 : Nat) ⊓ n = 150 := Nat.min_eq_left h1
  have hpn : processN 150 150 ⟨0, 0, [], [(0, 150)]⟩ = ⟨100, 50, [100], [(0, 150)]⟩ := by
    decide
  simp only [hn0, hfl, hk, List.nil_append, hpn]
  norm_num
  exact syncLoopN_page2 n n [(0, 150)] (by omega) h2

/-- Projection of a full `sync` run, with enough fuel for its store. -/
theorem sync_proj_eval (maxContacts : Nat) (store : List BabyRow) :
    proj (sync maxContacts store)
      = syncLoopN (store.length + 1) 5000 maxContacts store.length ⟨0, 0, [], []⟩ 0 := by
  rw [sync, syncWith,
    syncLoop_proj 5000 maxContacts store ⟨0, [], [], []⟩ 0 (store.length + 1) (by omega)]
  rfl

theorem sync_total_eval (maxContacts : Nat) (store : List BabyRow) :
    (sync maxContacts store).totalSynced
      = (syncLoopN (store.length + 1) 5000 maxContacts store.length ⟨0, 0, [], []⟩ 0).total := by
  have h := congrArg NState.total (sync_proj_eval maxContacts store)
  rw [proj_total] at h
  exact h

theorem sync_callLens_eval (maxContacts : Nat) (store : List BabyRow) :
    (sync maxContacts store).calls.map List.length
      = (syncLoopN (store.length + 1) 5000 maxContacts store.length ⟨0, 0, [], []⟩ 0).callLens := by
  have h := congrArg NState.callLens (sync_proj_eval maxContacts store)
  rw [proj_callLens] at h
  exact h

theorem sync_fetches_eval (maxContacts : Nat) (store : List BabyRow) :
    (sync maxContacts store).fetches
      = (syncLoopN (store.length + 1) 5000 maxContacts store.length ⟨0, 0, [], []⟩ 0).fetches := by
  have h := congrArg NState.fetches (sync_proj_eval maxContacts store)
  rw [proj_fetches] at h
  exact h

/-! Claim theorems. -/

/-- C1: the claim states that an egress run never delivers more than the
configured cap. The code violates it: with cap 150 over a store of 5050
rows (ids 1..5050, every remote call succeeding), the leftover batch of 50
carried across the page boundary is topped up to 100 by the second fetch
and flushed whole, so the run delivers 200 records — 50 beyond the cap.
This theorem evaluates the embedded run at that failing input. -/
theorem c1_cap_overrun :
    (sync 150 (mkStore 5050)).totalSynced = 200
      ∧ (sync 150 (mkStore 5050)).calls.map List.length = [100, 100] := by
  constructor
  · rw [sync_total_eval, mkStore_length]
    decide
  · rw [sync_callLens_eval, mkStore_length]
    decide

/-- C2 counterexample: the claim promises exactly 150 records in two calls
of 100 and 50 for every store holding at least 150 records; over a store
of 5001 rows the run delivers 151 records, the second call carrying 51. -/
theorem c2_counterexample :
    150 ≤ (mkStore 5001).length
      ∧ (sync 150 (mkStore 5001)).totalSynced = 151
      ∧ (sync 150 (mkStore 5001)).calls.map List.length = [100, 51] := by
  refine ⟨by rw [mkStore_length]; omega, ?_, ?_⟩
  · rw [sync_total_eval, mkStore_length]
    decide
  · rw [sync_callLens_eval, mkStore_length]
    decide

/-- C2 amended: with cap 150, page size 5000 and outgoing batch size 100,
a store holding at least 150 and at most 5000 rows yields exactly 150
delivered records in exactly two outgoing calls of 100 and 50 entries,
the final partial batch being flushed before the loop stops. -/
theorem c2_amended (store : List BabyRow)
    (h1 : 150 ≤ store.length) (h2 : store.length ≤ 5000) :
    (sync 150 store).totalSynced = 150
      ∧ (sync 150 store).calls.map List.length = [100, 50] := by
  constructor
  · rw [sync_total_eval, syncLoopN_cap150 store.length h1 h2]
  · rw [sync_callLens_eval, syncLoopN_cap150 store.length h1 h2]

/-- Witness for the amended C2 at a store of exactly 150 rows. -/
theorem c2_amended_witness :
    (sync 150 (mkStore 150)).totalSynced = 150
      ∧ (sync 150 (mkStore 150)).calls.map List.length = [100, 50] :=
  c2_amended (mkStore 150) (by rw [mkStore_length]) (by rw [mkStore_length]; omega)

/-- C3: the claim states that every page fetch returns rows ordered by the
ascending surrogate id, making pages deterministic, disjoint, contiguous
slices. The embedded call site shows (i) the query options carry no
ordering directive, so a backend presenting the two committed rows as
[id 2, id 1] — legal for an unordered query — yields a page that is not in
ascending id order, unlike the same query with an explicit ascending-id
order; and (ii) in the cap-150 run over 5001 rows the fetches are issued
at offsets 0, 5000, 10000 with limits 150, 50, 50, so after reading rows
1..150 the next fetch skips rows 151..5000: the pages are not contiguous. -/
theorem c3_unordered_pages :
    (∀ l o, (syncFetchOptions l o).order = none)
    ∧ findAll [⟨2, "b", "F"⟩, ⟨1, "a", "M"⟩] (syncFetchOptions 10 0)
        = [⟨2, "b", "F"⟩, ⟨1, "a", "M"⟩]
    ∧ findAll [⟨2, "b", "F"⟩, ⟨1, "a", "M"⟩]
        { limit := 10, offset := 0, order := some .ascId, raw := true, logging := false }
        = [⟨1, "a", "M"⟩, ⟨2, "b", "F"⟩]
    ∧ (sync 150 (mkStore 5001)).fetches = [(0, 150), (5000, 50), (10000, 50)] := by
  refine ⟨fun l o => rfl, by decide, by decide, ?_⟩
  rw [sync_fetches_eval, mkStore_length]
  decide

/-- C4 counterexample: the claim states that no store write error makes
the run terminate with an error instead of its final count, including on
the final partial batch. A run of one valid row with threshold 1000 whose
single (final) bulk write fails rejects with that error. -/
theorem c4_counterexample :
    (importRun [⟨"Ann", "F"⟩] 1000 (fun _ => Except.error "disk full")).result
      = Except.error "disk full" := rfl

/-- C4 amended: a mid-run batch write error is logged and swallowed and
the run continues, but a write error on the final partial batch flushed at
end-of-input rejects the run with that error: the run's result is an
error exactly when the stream ended with a non-empty leftover batch and
the sink failed the final bulk-insert call. -/
theorem c4_amended (rows : List CsvRow) (thr : Nat)
    (sink : Nat → Except String Nat) (e : String) :
    (importRun rows thr sink).result = .error e
      ↔ ((importRun rows thr sink).finalBatch ≠ []
          ∧ sink (importRun rows thr sink).midCalls = .error e) :=
  importGo_error_iff thr sink rows ⟨0, 0, [], 0, 0, []⟩ e

/-- C5: for every row that passes validation the produced record carries
the trimmed name, and its sex is M exactly when the trimmed Sex field
equals "M", otherwise F; and the spec's three-row scenario with threshold
2 skips one row and produces exactly the records (John, M) and (Ann, F). -/
theorem c5_normalization :
    (∀ row : CsvRow, ¬ rowInvalid row →
        (processRow row).name = trimStr row.Name
        ∧ ((processRow row).sex = "M" ↔ trimStr row.Sex = "M")
        ∧ (trimStr row.Sex ≠ "M" → (processRow row).sex = "F"))
    ∧ (importRun [⟨"  John ", "M"⟩, ⟨"", "F"⟩, ⟨"Ann", "m"⟩] 2 (fun _ => .ok 2)).skipped = 1
    ∧ (importRun [⟨"  John ", "M"⟩, ⟨"", "F"⟩, ⟨"Ann", "m"⟩] 2 (fun _ => .ok 2)).calls.flatten
        = [⟨"John", "M"⟩, ⟨"Ann", "F"⟩] := by
  refine ⟨?_, by decide, by decide⟩
  intro row _
  refine ⟨rfl, ?_, ?_⟩
  · show (if trimStr row.Sex = "M" then "M" else "F") = "M" ↔ trimStr row.Sex = "M"
    by_cases h : trimStr row.Sex = "M"
    · simp [h]
    · simp [h]
  · intro h
    show (if trimStr row.Sex = "M" then "M" else "F") = "F"
    rw [if_neg h]

/-- Witness for C5 at the scenario's first row. -/
theorem c5_witness :
    (processRow ⟨"  John ", "M"⟩).name = trimStr "  John "
    ∧ ((processRow ⟨"  John ", "M"⟩).sex = "M" ↔ trimStr "M" = "M")
    ∧ (trimStr "M" ≠ "M" → (processRow ⟨"  John ", "M"⟩).sex = "F") :=
  c5_normalization.1 ⟨"  John ", "M"⟩ (by decide)

/-- C6 counterexample: the claim states the derived upsert key is unique
per record — two records differing in name or sex get distinct keys. The
rows (Ann, M) and (ann, M) differ in name yet receive the same key,
because the key lowercases the name. -/
theorem c6_counterexample :
    (formatContactForHubSpot ⟨1, "Ann", "M"⟩).email
      = (formatContactForHubSpot ⟨2, "ann", "M"⟩).email
    ∧ ("Ann" : String) ≠ "ann" := by
  exact ⟨by decide, by decide⟩

/-- C6 amended: the derived key is a deterministic function of (name,
sex) — in particular it ignores the surrogate id — and over the store's
enum values M and F two rows receive the same key exactly when their
names agree after lowercasing and collapsing whitespace runs to dots and
their sexes agree; rows with distinct normalized names or distinct sexes
get distinct keys. -/
theorem c6_amended :
    (∀ r1 r2 : BabyRow, r1.name = r2.name → r1.sex = r2.sex →
        (formatContactForHubSpot r1).email = (formatContactForHubSpot r2).email)
    ∧ (∀ r1 r2 : BabyRow,
        (r1.sex = "M" ∨ r1.sex = "F") → (r2.sex = "M" ∨ r2.sex = "F") →
        ((formatContactForHubSpot r1).email = (formatContactForHubSpot r2).email
          ↔ (normName r1.name = normName r2.name ∧ r1.sex = r2.sex))) := by
  constructor
  · intro r1 r2 hn hs
    show contactEmail r1.name r1.sex = contactEmail r2.name r2.sex
    rw [hn, hs]
  · intro r1 r2 h1 h2
    show contactEmail r1.name r1.sex = contactEmail r2.name r2.sex ↔ _
    exact contactEmail_inj_mf h1 h2

/-- Witness for the amended C6: equal names and sexes with different ids
share a key, and the rows (a b, M) and (a.b, F) — whose normalized names
collide — still get distinct keys because their sexes differ. -/
theorem c6_witness :
    (formatContactForHubSpot ⟨1, "Ann", "M"⟩).email
      = (formatContactForHubSpot ⟨2, "Ann", "M"⟩).email
    ∧ ((formatContactForHubSpot ⟨1, "a b", "M"⟩).email
          = (formatContactForHubSpot ⟨2, "a.b", "F"⟩).email
        ↔ (normName "a b" = normName "a.b" ∧ ("M" : String) = "F")) :=
  ⟨c6_amended.1 ⟨1, "Ann", "M"⟩ ⟨2, "Ann", "M"⟩ rfl rfl,
    c6_amended.2 ⟨1, "a b", "M"⟩ ⟨2, "a.b", "F"⟩ (Or.inl rfl) (Or.inr rfl)⟩

/-- C7: in every egress run — any page size, any cap, any store — every
outgoing call to the remote upsert endpoint carries at least 1 and at most
100 entries: full batches are flushed at exactly 100, and the final
partial flush is guarded by a non-emptiness test. -/
theorem c7_batch_bounds (pageSize maxContacts : Nat) (store : List BabyRow) :
    ∀ b ∈ (syncWith pageSize maxContacts store).calls,
      0 < b.length ∧ b.length ≤ hubspotBatchSize := by
  intro b hb
  have hmem : b.length ∈ (proj (syncWith pageSize maxContacts store)).callLens := by
    rw [proj_callLens]
    exact List.mem_map_of_mem List.length hb
  rw [syncWith,
    syncLoop_proj pageSize maxContacts store ⟨0, [], [], []⟩ 0 (store.length + 1) (by omega)]
    at hmem
  exact syncLoopN_inv (store.length + 1) pageSize maxContacts store.length _ 0
    ⟨fun x hx => absurd hx (List.not_mem_nil x), by decide⟩ b.length hmem

/-- Witness for C7: the single call of a one-row run. -/
theorem c7_witness :
    0 < [formatContactForHubSpot ⟨1, "a", "M"⟩].length
    ∧ [formatContactForHubSpot ⟨1, "a", "M"⟩].length ≤ hubspotBatchSize :=
  c7_batch_bounds 5000 1 [⟨1, "a", "M"⟩] [formatContactForHubSpot ⟨1, "a", "M"⟩]
    (by simp [syncWith, syncLoop, processRecords, flushFinal, findAll,
      syncFetchOptions, hubspotBatchSize])

/-- C8: a throttled response makes the sender wait one cycle and retry the
identical batch (first conjunct: the send against a script starting with a
throttle is the send against the rest, with one more attempt and one more
wait, same batch); for the scripted sequence [throttled, throttled,
success] the batch is delivered exactly once, after exactly two
wait-and-retry cycles, with no error surfaced. -/
theorem c8_throttle_retry :
    (∀ (b : List Contact) (rest : List HubResp),
        sendBatchR b (.throttled :: rest)
          = ⟨(sendBatchR b rest).outcome, (sendBatchR b rest).rest,
              (sendBatchR b rest).attempts + 1, (sendBatchR b rest).waits + 1,
              (sendBatchR b rest).deliveredBatches⟩)
    ∧ sendBatchR [formatContactForHubSpot ⟨1, "a", "M"⟩] [.throttled, .throttled, .success]
        = ⟨none, [], 3, 2, [[formatContactForHubSpot ⟨1, "a", "M"⟩]]⟩ :=
  ⟨fun _ _ => rfl, by decide⟩

/-- C9: when the remote answers the first HTTP attempt of an egress run
with 401, the run aborts immediately with the authentication error
surfaced to the caller: if the run ever calls the remote it stops with the
auth error after exactly that one attempt — no retry of the failed batch,
no further outgoing calls — and a run that ends normally made no attempt
at all. -/
theorem c9_auth_abort (rest : List HubResp) (maxContacts : Nat) (store : List BabyRow) :
    (∀ st, syncR (.unauthorized :: rest) maxContacts store = .ok st → st.attempts = 0)
    ∧ (∀ e st, syncR (.unauthorized :: rest) maxContacts store = .error (e, st) →
        e = .authError ∧ st.attempts = 1) := by
  have h := syncLoopR_unauth 5000 maxContacts store rest
    ⟨0, [], .unauthorized :: rest, 0, []⟩ 0 rfl rfl
  constructor
  · intro st hok
    rw [syncR] at hok
    rcases h with ⟨st2, h1, h2⟩ | ⟨st2, h1, h2⟩
    · rw [h1] at hok
      injection hok with h3
      rw [← h3]
      exact h2
    · rw [h1] at hok
      cases hok
  · intro e st herr
    rw [syncR] at herr
    rcases h with ⟨st2, h1, h2⟩ | ⟨st2, h1, h2⟩
    · rw [h1] at herr
      cases herr
    · rw [h1] at herr
      injection herr with h3
      injection h3 with h4 h5
      rw [← h5]
      exact ⟨h4.symm, h2⟩

/-- Witness for C9: one row, cap 1, script [unauthorized]: the run makes
its single call at the final flush, gets 401, and aborts with the auth
error after exactly one attempt. -/
theorem c9_witness :
    SyncError.authError = SyncError.authError
    ∧ (⟨0, [formatContactForHubSpot ⟨1, "a", "M"⟩], [], 1, []⟩ : SyncRState).attempts = 1 :=
  (c9_auth_abort [] 1 [⟨1, "a", "M"⟩]).2 .authError
    ⟨0, [formatContactForHubSpot ⟨1, "a", "M"⟩], [], 1, []⟩
    (by simp [syncR, syncLoopR, processRecordsR, flushBatchR, sendBatchR, findAll,
      syncFetchOptions, hubspotBatchSize])

end BabyNames

